import Mathlib

/-!
# fastapi-sdk: DeepSeek chat adapter and Anthropic error handler

A shallow embedding of `src/deepseek/chat.go` (`ChatCompletions`,
`ChatCompletionsStream`) and of `src/anthropic/anthropic.go`
(`NewAwsAdapter`, `requestErrorHandler`), followed by the properties proved
about them.

Conventions of the embedding

* A Go `error` is its message; `nil` is `none`.
* `gtime.TimestampMilli()` is a clock `Nat → Int`: the `k`-th call made by one
  invocation returns `clock k`.  Go's `int64` subtraction is `sub64`.
* Calls into code outside the two files (request/response converters, the HTTP
  and SSE clients, the goroutine pool, `json.Unmarshal`, the JSON encoder) are
  parameters holding the value the call returned.
* Logger calls have no effect on the values and events studied and are left out.
-/

namespace FastapiSdk

/-! ## Common data -/

/-- A Go `error` value that is not nil, represented by its message. -/
abbrev Err := String

/-- The sentinel `io.EOF`. -/
def ioEOF : Err := "EOF"

instance instDecidableEqExcept {ε α : Type} [DecidableEq ε] [DecidableEq α] :
    DecidableEq (Except ε α)
  | .ok a, .ok b => if h : a = b then isTrue (by rw [h]) else isFalse (by intro h2; cases h2; exact h rfl)
  | .error a, .error b =>
    if h : a = b then isTrue (by rw [h]) else isFalse (by intro h2; cases h2; exact h rfl)
  | .ok _, .error _ => isFalse (by intro h; cases h)
  | .error _, .ok _ => isFalse (by intro h; cases h)

/-- Two-complement wrap of an integer into the `int64` range. -/
def wrap64 (x : Int) : Int :=
  (x + 9223372036854775808) % 18446744073709551616 - 9223372036854775808

/-- Go's `a - b` on `int64` operands. -/
def sub64 (a b : Int) : Int := wrap64 (a - b)

/-- The range in which two clock readings can be subtracted without wrapping.
`gtime.TimestampMilli` is a nanosecond `int64` divided by `1e6`, far inside it. -/
def InClockRange (t : Int) : Prop :=
  -4611686018427387904 ≤ t ∧ t < 4611686018427387904

instance (t : Int) : Decidable (InClockRange t) := by
  unfold InClockRange; infer_instance

/-- The struct `model.ChatCompletionResponse`.  Its declaration is outside the two
files; `Body` stands for every field other than the four the adapter writes. -/
structure ChatCompletionResponse where
  Body : String := ""
  ConnTime : Int := 0
  Duration : Int := 0
  TotalTime : Int := 0
  Error : Option Err := none
deriving DecidableEq, Repr

/-- The Go zero value of `model.ChatCompletionResponse`. -/
def ChatCompletionResponse.zero : ChatCompletionResponse := {}

/-- A raw byte payload (`[]byte`): a request body, a response body or an SSE frame. -/
abbrev Bytes := String

/-! ## `DeepSeek.ChatCompletions` (chat.go, lines 16-46) -/

/-- The synchronous call.  `convReq` is the result of `ConvChatCompletionsRequest`,
`httpPost` the result of `util.HttpPost` on the converted request, `convResp` the
pair returned by `ConvChatCompletionsResponse`.  The named result `response`
starts as the zero value; the deferred function overwrites its `TotalTime` after
the `return` statement has stored the results. -/
def ChatCompletions (clock : Nat → Int)
    (convReq : Except Err Bytes)
    (httpPost : Bytes → Except Err Bytes)
    (convResp : Bytes → ChatCompletionResponse × Option Err) :
    ChatCompletionResponse × Option Err :=
  let now := clock 0
  let ret : ChatCompletionResponse × Option Err :=
    match convReq with
    | .error err => (ChatCompletionResponse.zero, some err)
    | .ok request =>
      match httpPost request with
      | .error err => (ChatCompletionResponse.zero, some err)
      | .ok bytes =>
        match convResp bytes with
        | (response, some err) => (response, some err)
        | (response, none) => (response, none)
  ({ ret.1 with TotalTime := sub64 (clock 1) now }, ret.2)

/-! ## `DeepSeek.ChatCompletionsStream` (chat.go, lines 48-138) -/

/-- What the SSE stream handle and the response channel are asked to do, in the
order in which it happens. -/
inductive Event where
  /-- A call `stream.Recv()` together with what it returned. -/
  | recv (r : Except Err Bytes)
  /-- The send `responseChan <- chunk`. -/
  | send (chunk : ChatCompletionResponse)
  /-- The call `stream.Close()`. -/
  | streamClose
  /-- The statement `responseChan = make(chan ...)`. -/
  | chanMake
  /-- A `close(responseChan)`. -/
  | chanClose
deriving DecidableEq

/-- The sentinel chunk built at lines 98-103 and 113-118. -/
def terminalChunk (now duration end_ : Int) (err : Err) : ChatCompletionResponse :=
  { ConnTime := sub64 duration now
    Duration := sub64 end_ duration
    TotalTime := sub64 end_ now
    Error := some err }

/-- The content chunk of lines 123-129: the decoded response with its three timing
fields overwritten. -/
def contentChunk (now duration end_ : Int) (response : ChatCompletionResponse) :
    ChatCompletionResponse :=
  { response with
    ConnTime := sub64 duration now
    Duration := sub64 end_ duration
    TotalTime := sub64 end_ now }

/-- The run of the background producer. -/
structure ProducerRun where
  /-- Events performed, oldest first. -/
  trace : List Event
  /-- Whether the function passed to the pool returned. -/
  returned : Bool
  /-- Results of `stream.Recv()` the producer never asked for. -/
  unread : List (Except Err Bytes)
deriving DecidableEq

/-- The function handed to `grpool.AddWithRecover` (lines 75-132).  `script` lists
what the successive calls of `stream.Recv()` return; when it is exhausted `Recv`
does not return and the producer stays blocked.  `tick` is the index of the next
clock reading.  Every send is taken by the consumer.  On return the deferred
function closes the stream and reads the clock once more for its log line. -/
def producer (conv : Bytes → ChatCompletionResponse × Option Err) (clock : Nat → Int)
    (now duration : Int) : Nat → List (Except Err Bytes) → ProducerRun
  | _, [] => { trace := [], returned := false, unread := [] }
  | tick, .error err :: rest =>
    let end_ := clock tick
    { trace := [.recv (.error err), .send (terminalChunk now duration end_ err), .streamClose]
      returned := true
      unread := rest }
  | tick, .ok responseBytes :: rest =>
    match conv responseBytes with
    | (_, some err) =>
      let end_ := clock tick
      { trace := [.recv (.ok responseBytes), .send (terminalChunk now duration end_ err),
                  .streamClose]
        returned := true
        unread := rest }
    | (response, none) =>
      let end_ := clock tick
      let run := producer conv clock now duration (tick + 1) rest
      { run with
        trace := .recv (.ok responseBytes) :: .send (contentChunk now duration end_ response)
                  :: run.trace }

/-- The channel value handed back to the caller. -/
inductive ChanRef where
  /-- The nil channel. -/
  | nil
  /-- The channel made at line 73. -/
  | made
deriving DecidableEq

/-- Outcome of one call of `ChatCompletionsStream`. -/
structure StreamCall where
  /-- First result. -/
  responseChan : ChanRef
  /-- Second result. -/
  err : Option Err
  /-- Events of the call and of the producer it started, oldest first. -/
  trace : List Event
  /-- Whether the producer was started and returned. -/
  producerReturned : Bool
deriving DecidableEq

/-- The streaming call.  `convReq` is the result of `ConvChatCompletionsRequest`,
`sse` the result of `util.SSEClient` (an error, or a stream handle given by the
script of its `Recv` results), `spawn` the error returned by
`grpool.AddWithRecover` (`none` when the task was accepted, in which case the pool
runs it).  The named result `responseChan` is nil until line 73. -/
def ChatCompletionsStream (clock : Nat → Int)
    (convReq : Except Err Bytes)
    (sse : Bytes → Except Err (List (Except Err Bytes)))
    (spawn : Option Err)
    (conv : Bytes → ChatCompletionResponse × Option Err) : StreamCall :=
  let now := clock 0
  match convReq with
  | .error err => { responseChan := .nil, err := some err, trace := [], producerReturned := false }
  | .ok request =>
    match sse request with
    | .error err =>
      { responseChan := .nil, err := some err, trace := [], producerReturned := false }
    | .ok stream =>
      let duration := clock 1
      match spawn with
      | some err =>
        { responseChan := .made, err := some err, trace := [.chanMake],
          producerReturned := false }
      | none =>
        let run := producer conv clock now duration 2 stream
        { responseChan := .made, err := none, trace := .chanMake :: run.trace,
          producerReturned := run.returned }

/-- The chunks sent on the channel, in order. -/
def sends : List Event → List ChatCompletionResponse
  | [] => []
  | .send c :: es => c :: sends es
  | _ :: es => sends es

/-- The results of the `Recv` calls made, in order. -/
def recvs : List Event → List (Except Err Bytes)
  | [] => []
  | .recv r :: es => r :: recvs es
  | _ :: es => recvs es

/-- The events of a run of the loop over frames that all decode: one `Recv` and one
send for each, the `i`-th send stamped with clock reading `tick + i`. -/
def contentEvents (conv : Bytes → ChatCompletionResponse × Option Err) (clock : Nat → Int)
    (now duration : Int) : Nat → List Bytes → List Event
  | _, [] => []
  | tick, f :: fs =>
    .recv (.ok f) :: .send (contentChunk now duration (clock tick) (conv f).1)
      :: contentEvents conv clock now duration (tick + 1) fs

/-! ## `NewAwsAdapter` (anthropic.go, lines 90-106) -/

/-- Go's `strings.Index(s, sep)` for a separator of one character: the position of
its first occurrence, `none` standing for `-1`. -/
def Index (sep : Char) : List Char → Option Nat
  | [] => none
  | c :: cs => if c = sep then some 0 else (Index sep cs).map (· + 1)

/-- The loop of Go's `strings.genSplit` for a separator of one character, `n` being
the number of rounds left (`i < n` in the library): cut at the first separator and
go on with what follows it; what remains when the loop ends is the last part. -/
def genSplit (sep : Char) : Nat → List Char → List (List Char)
  | 0, s => [s]
  | n + 1, s =>
    match Index sep s with
    | none => [s]
    | some m => s.take m :: genSplit sep n (s.drop (m + 1))

/-- The call `gstr.Split(str, delimiter)`, which is `strings.Split`, for a delimiter
of one character: `genSplit` asked for `Count(s, sep) + 1` parts.  The delimiter
used is ASCII, so cutting the code points cuts the bytes at the same places. -/
def Split (str : String) (delimiter : Char) : List String :=
  (genSplit delimiter (str.toList.count delimiter) str.toList).map String.mk

/-- What `NewAwsAdapter` hands to `bedrockruntime.New` and
`credentials.NewStaticCredentialsProvider`. -/
structure AwsAdapter where
  Region : String
  AccessKeyID : String
  SecretAccessKey : String
  isAws : Bool
deriving DecidableEq

/-- The run-time panic `index out of range [index] with length length`. -/
structure IndexOutOfRange where
  index : Nat
  length : Nat
deriving DecidableEq

/-- The constructor `NewAwsAdapter`, as far as `options.Key` goes: the key is split
on `|` and `result[0]`, `result[1]`, `result[2]` are read in that order, each read
panicking when the index is not below the length of `result`. -/
def NewAwsAdapter (key : String) : Except IndexOutOfRange AwsAdapter :=
  let result := Split key '|'
  match result[0]? with
  | none => .error { index := 0, length := result.length }
  | some region =>
    match result[1]? with
    | none => .error { index := 1, length := result.length }
    | some accessKey =>
      match result[2]? with
      | none => .error { index := 2, length := result.length }
      | some secret =>
        .ok { Region := region, AccessKeyID := accessKey, SecretAccessKey := secret,
              isAws := true }

/-- The text before the first `sep`, or the whole text when there is none. -/
def beforeSep (sep : Char) (s : List Char) : List Char := s.takeWhile (· ≠ sep)

/-- The text after the first `sep`, empty when there is none. -/
def afterSep (sep : Char) (s : List Char) : List Char := (s.dropWhile (· ≠ sep)).drop 1

/-! ## `Anthropic.requestErrorHandler` (anthropic.go, lines 108-134) -/

/-- The struct behind the pointer `model.AnthropicErrorResponse.Error`; it is
declared outside the two files and only its `Type` field is read here. -/
structure AnthropicError where
  Type_ : String
  Message : String
deriving DecidableEq

/-- The struct `errors.RequestError`, with the two fields line 118 fills. -/
structure RequestError where
  HttpStatusCode : Int
  Err : String
deriving DecidableEq

/-- Modelled from the spec: the constructor `errors.NewRequestError` is declared
outside the two files.  The classifier keeps "the original status code" in the error
it builds, so the constructor stores its arguments in the two fields of
`RequestError`, as the literal at line 118 does. -/
def NewRequestError (status : Int) (err : Err) : RequestError :=
  { HttpStatusCode := status, Err := err }

/-- What `json.Unmarshal(bytes, &errRes)` leaves behind: the error it returned and the
pointer `errRes.Error`. -/
structure Unmarshalled where
  err : Option Err
  Error : Option AnthropicError
deriving DecidableEq

/-- How the handler ends. -/
inductive HandlerResult where
  /-- The error of `io.ReadAll`, returned as it is (line 112). -/
  | plain (err : Err)
  /-- A `*errors.RequestError`. -/
  | request (reqErr : RequestError)
  /-- A run-time panic: field read through the nil pointer `errRes.Error`. -/
  | nilDereference
deriving DecidableEq

/-- The verb `%v` applied to an `error`: its message, or `<nil>`. -/
def fmtV : Option Err → String
  | none => "<nil>"
  | some e => e

/-- The handler.  `readAll` is the result of `io.ReadAll(response.Body)`, `unmarshal`
the effect of `json.Unmarshal`, `encode` is `gjson.MustEncodeString`.  The `switch`
on `errRes.Error.Type` has no case; reaching it reads a field through
`errRes.Error`. -/
def requestErrorHandler (encode : AnthropicError → String) (unmarshal : Bytes → Unmarshalled)
    (StatusCode : Int) (readAll : Except Err Bytes) : HandlerResult :=
  match readAll with
  | .error err => .plain err
  | .ok bytes =>
    let errRes := unmarshal bytes
    if errRes.err.isSome || errRes.Error.isNone then
      let reqErr : RequestError :=
        { HttpStatusCode := StatusCode
          Err := "response: " ++ bytes ++ ", error: " ++ fmtV errRes.err }
      match errRes.Error with
      | some e => .request { reqErr with Err := encode e }
      | none => .request reqErr
    else
      match errRes.Error with
      | none => .nilDereference
      | some e =>
        .request (NewRequestError StatusCode
          ("error, status code: " ++ toString StatusCode ++ ", response: " ++ encode e))

/-! ## Values used in the examples -/

/-- A clock used in the examples: 1000 ms at entry, one millisecond more at each of
the next eight readings, then standing still. -/
def sampleClock (k : Nat) : Int := 1000 + (min k 8 : Nat)

/-- A decoder used in the examples: a frame starting with `!` is rejected, any other
frame decodes to a response holding it. -/
def sampleConv (frame : Bytes) : ChatCompletionResponse × Option Err :=
  if frame.toList.head? = some '!' then (ChatCompletionResponse.zero, some "bad frame")
  else ({ Body := frame, TotalTime := 77 }, none)

/-- An encoder used in the examples, standing for `gjson.MustEncodeString`. -/
def sampleEncode (e : AnthropicError) : String := e.Type_ ++ ": " ++ e.Message

/-- A parser used in the examples, standing for `json.Unmarshal`: a body that does
not start with an opening brace is rejected, the body `\x7b\x7d` holds no error
object, any other body holds a rate-limit error object. -/
def sampleUnmarshal (body : Bytes) : Unmarshalled :=
  if body.toList.head? ≠ some (Char.ofNat 123) then
    { err := some "invalid character", Error := none }
  else if body.toList = [Char.ofNat 123, Char.ofNat 125] then { err := none, Error := none }
  else { err := none, Error := some { Type_ := "rate_limit_error", Message := "slow down" } }

/-! ## Arithmetic of clock readings -/

theorem wrap64_of_range (x : Int) (hlo : -9223372036854775808 ≤ x)
    (hhi : x < 9223372036854775808) : wrap64 x = x := by
  unfold wrap64
  omega

theorem sub64_of_range (a b : Int) (ha : InClockRange a) (hb : InClockRange b) :
    sub64 a b = a - b := by
  unfold InClockRange at ha hb
  unfold sub64
  apply wrap64_of_range <;> omega

/-! ## The producer loop -/

theorem sends_append (xs ys : List Event) : sends (xs ++ ys) = sends xs ++ sends ys := by
  induction xs with
  | nil => rfl
  | cons x xs ih => cases x <;> simp [sends, ih]

theorem recvs_append (xs ys : List Event) : recvs (xs ++ ys) = recvs xs ++ recvs ys := by
  induction xs with
  | nil => rfl
  | cons x xs ih => cases x <;> simp [recvs, ih]

theorem sends_contentEvents (conv : Bytes → ChatCompletionResponse × Option Err)
    (clock : Nat → Int) (now duration : Int) (frames : List Bytes) (tick : Nat) :
    sends (contentEvents conv clock now duration tick frames)
      = frames.mapIdx (fun i f => contentChunk now duration (clock (tick + i)) (conv f).1) := by
  induction frames generalizing tick with
  | nil => rfl
  | cons f fs ih =>
    simp only [contentEvents, sends, List.mapIdx_cons, ih, Nat.add_zero]
    congr 2
    funext i g
    rw [Nat.add_assoc, Nat.add_comm 1 i]

theorem recvs_contentEvents (conv : Bytes → ChatCompletionResponse × Option Err)
    (clock : Nat → Int) (now duration : Int) (frames : List Bytes) (tick : Nat) :
    recvs (contentEvents conv clock now duration tick frames) = frames.map .ok := by
  induction frames generalizing tick with
  | nil => rfl
  | cons f fs ih => simp [contentEvents, recvs, ih]

theorem getLast?_three (x : Event) (xs : List Event) (a b c : Event) :
    (x :: (xs ++ [a, b, c])).getLast? = some c := by
  have h : x :: (xs ++ [a, b, c]) = (x :: xs ++ [a, b]) ++ [c] := by simp
  rw [h, List.getLast?_concat]

/-- While frames decode, the loop goes round: the run on `frames ++ rest` is the run
on `rest` started `frames.length` clock readings later, behind the events of the
frames. -/
theorem producer_frames (conv : Bytes → ChatCompletionResponse × Option Err)
    (clock : Nat → Int) (now duration : Int) (frames : List Bytes)
    (rest : List (Except Err Bytes)) (tick : Nat)
    (hdec : ∀ f ∈ frames, (conv f).2 = none) :
    producer conv clock now duration tick (frames.map .ok ++ rest)
      = { producer conv clock now duration (tick + frames.length) rest with
          trace := contentEvents conv clock now duration tick frames
            ++ (producer conv clock now duration (tick + frames.length) rest).trace } := by
  induction frames generalizing tick with
  | nil => simp [contentEvents]
  | cons f fs ih =>
    have hf : (conv f).2 = none := hdec f (List.mem_cons_self _ _)
    have hfs : ∀ g ∈ fs, (conv g).2 = none := fun g hg => hdec g (List.mem_cons_of_mem _ hg)
    have hc : conv f = ((conv f).1, none) := by rw [← hf]
    simp only [List.map_cons, List.cons_append, producer]
    rw [hc]
    have happ : (List.map Except.ok fs).append rest = List.map Except.ok fs ++ rest := rfl
    have htick : tick + 1 + fs.length = tick + (fs.length + 1) := by omega
    simp only [happ, ih (tick + 1) hfs, htick, contentEvents, List.length_cons,
      List.cons_append]

/-- Every chunk the producer sends carries, as `TotalTime`, a clock reading taken at
or after `tick`, minus the reading `now`. -/
theorem producer_sends_stamp (conv : Bytes → ChatCompletionResponse × Option Err)
    (clock : Nat → Int) (now duration : Int) (script : List (Except Err Bytes)) (tick : Nat) :
    ∀ c ∈ sends (producer conv clock now duration tick script).trace,
      ∃ k, tick ≤ k ∧ c.TotalTime = sub64 (clock k) now := by
  induction script generalizing tick with
  | nil => intro c hc; simp [producer, sends] at hc
  | cons r rest ih =>
    intro c hc
    cases r with
    | error err =>
      simp only [producer, sends, List.mem_singleton] at hc
      exact ⟨tick, le_refl _, by rw [hc]; rfl⟩
    | ok f =>
      rcases h : conv f with ⟨response, _ | err⟩
      · simp only [producer, h, sends, List.mem_cons] at hc
        rcases hc with hc | hc
        · exact ⟨tick, le_refl _, by rw [hc]; rfl⟩
        · obtain ⟨k, hk, hkc⟩ := ih (tick + 1) c hc
          exact ⟨k, by omega, hkc⟩
      · simp only [producer, h, sends, List.mem_singleton] at hc
        exact ⟨tick, le_refl _, by rw [hc]; rfl⟩

/-- With a clock that never goes back and stays in range, the `TotalTime` values of
the chunks sent by the producer never decrease. -/
theorem producer_sends_sorted (conv : Bytes → ChatCompletionResponse × Option Err)
    (clock : Nat → Int) (n d : Nat) (script : List (Except Err Bytes)) (tick : Nat)
    (hrange : ∀ k, InClockRange (clock k)) (hmono : ∀ k, clock k ≤ clock (k + 1)) :
    List.Pairwise (fun a b : ChatCompletionResponse => a.TotalTime ≤ b.TotalTime)
      (sends (producer conv clock (clock n) (clock d) tick script).trace) := by
  have hm : Monotone clock := monotone_nat_of_le_succ hmono
  have hsub : ∀ k, sub64 (clock k) (clock n) = clock k - clock n :=
    fun k => sub64_of_range _ _ (hrange k) (hrange n)
  induction script generalizing tick with
  | nil => simp [producer, sends]
  | cons r rest ih =>
    cases r with
    | error err => simp [producer, sends]
    | ok f =>
      rcases h : conv f with ⟨response, _ | err⟩
      · simp only [producer, h, sends, List.pairwise_cons]
        refine ⟨?_, ih (tick + 1)⟩
        intro c hc
        obtain ⟨k, hk, hkc⟩ := producer_sends_stamp conv clock _ _ rest (tick + 1) c hc
        have h1 : clock tick ≤ clock k := hm (by omega)
        rw [hkc, hsub k]
        show sub64 (clock tick) (clock n) ≤ _
        rw [hsub tick]
        omega
      · simp [producer, h, sends]

/-- The producer performs no `close` on the channel. -/
theorem producer_no_chanClose (conv : Bytes → ChatCompletionResponse × Option Err)
    (clock : Nat → Int) (now duration : Int) (script : List (Except Err Bytes)) (tick : Nat) :
    Event.chanClose ∉ (producer conv clock now duration tick script).trace := by
  induction script generalizing tick with
  | nil => simp [producer]
  | cons r rest ih =>
    cases r with
    | error err => simp [producer]
    | ok f =>
      rcases h : conv f with ⟨response, _ | err⟩
      · simp only [producer, h, List.mem_cons, not_or]
        exact ⟨by simp, by simp, ih (tick + 1)⟩
      · simp [producer, h]

/-- A producer that returned ended with: a last `Recv`, the send of one chunk that
carries an error, and `stream.Close()`, which was not called before. -/
theorem producer_returned_shape (conv : Bytes → ChatCompletionResponse × Option Err)
    (clock : Nat → Int) (now duration : Int) (script : List (Except Err Bytes)) (tick : Nat)
    (hret : (producer conv clock now duration tick script).returned = true) :
    ∃ pre r term e,
      (producer conv clock now duration tick script).trace
        = pre ++ [.recv r, .send term, .streamClose]
      ∧ term.Error = some e ∧ Event.streamClose ∉ pre := by
  induction script generalizing tick with
  | nil => simp [producer] at hret
  | cons r rest ih =>
    cases r with
    | error err =>
      exact ⟨[], .error err, terminalChunk now duration (clock tick) err, err,
        by simp [producer], rfl, by simp⟩
    | ok f =>
      rcases h : conv f with ⟨response, _ | err⟩
      · simp only [producer, h] at hret
        obtain ⟨pre, r, term, e, htr, herr, hpre⟩ := ih (tick + 1) hret
        refine ⟨.recv (.ok f) :: .send (contentChunk now duration (clock tick) response) :: pre,
          r, term, e, ?_, herr, ?_⟩
        · simp [producer, h, htr]
        · simp [hpre]
      · exact ⟨[], .ok f, terminalChunk now duration (clock tick) err, err,
          by simp [producer, h], rfl, by simp⟩

/-- A producer still blocked in `Recv` has not closed the stream. -/
theorem producer_blocked_no_close (conv : Bytes → ChatCompletionResponse × Option Err)
    (clock : Nat → Int) (now duration : Int) (script : List (Except Err Bytes)) (tick : Nat)
    (hret : (producer conv clock now duration tick script).returned = false) :
    Event.streamClose ∉ (producer conv clock now duration tick script).trace := by
  induction script generalizing tick with
  | nil => simp [producer]
  | cons r rest ih =>
    cases r with
    | error err => simp [producer] at hret
    | ok f =>
      rcases h : conv f with ⟨response, _ | err⟩
      · simp only [producer, h] at hret ⊢
        simp only [List.mem_cons, not_or]
        exact ⟨by simp, by simp, ih (tick + 1) hret⟩
      · simp [producer, h] at hret

/-- On every exit path of the producer `stream.Close()` is called exactly once, as
the last event, right after the send of the terminal chunk. -/
theorem producer_close_once (conv : Bytes → ChatCompletionResponse × Option Err)
    (clock : Nat → Int) (now duration : Int) (script : List (Except Err Bytes)) (tick : Nat)
    (hret : (producer conv clock now duration tick script).returned = true) :
    List.count Event.streamClose (producer conv clock now duration tick script).trace = 1 := by
  obtain ⟨pre, r, term, e, htr, _, hpre⟩ :=
    producer_returned_shape conv clock now duration script tick hret
  rw [htr, List.count_append, List.count_eq_zero.mpr hpre]
  simp [List.count_cons]

/-! ## Sessions that end with a read error or a decode error -/

/-- C1. When `stream.Recv` returns `n` frames that all decode and then the error `e`,
the channel carries exactly the `n` content chunks, the `i`-th being the decode of
the `i`-th frame with its three timing fields overwritten, followed by exactly one
terminal chunk whose `Error` is `e`; `Recv` was called `n + 1` times and the
producer returned. -/
theorem stream_frames_then_error (clock : Nat → Int) (request : Bytes)
    (conv : Bytes → ChatCompletionResponse × Option Err) (frames : List Bytes) (e : Err)
    (tail : List (Except Err Bytes)) (hdec : ∀ f ∈ frames, (conv f).2 = none) :
    (ChatCompletionsStream clock (.ok request)
        (fun _ => .ok (frames.map .ok ++ .error e :: tail)) none conv).err = none
    ∧ (ChatCompletionsStream clock (.ok request)
        (fun _ => .ok (frames.map .ok ++ .error e :: tail)) none conv).producerReturned = true
    ∧ sends (ChatCompletionsStream clock (.ok request)
        (fun _ => .ok (frames.map .ok ++ .error e :: tail)) none conv).trace
      = frames.mapIdx
          (fun i f => contentChunk (clock 0) (clock 1) (clock (2 + i)) (conv f).1)
        ++ [terminalChunk (clock 0) (clock 1) (clock (2 + frames.length)) e]
    ∧ (terminalChunk (clock 0) (clock 1) (clock (2 + frames.length)) e).Error = some e
    ∧ recvs (ChatCompletionsStream clock (.ok request)
        (fun _ => .ok (frames.map .ok ++ .error e :: tail)) none conv).trace
      = frames.map .ok ++ [.error e] := by
  simp only [ChatCompletionsStream, producer_frames conv clock _ _ frames _ 2 hdec, producer]
  refine ⟨trivial, trivial, ?_, rfl, ?_⟩
  · simp [sends, sends_append, sends_contentEvents]
  · simp [recvs, recvs_append, recvs_contentEvents]

theorem stream_frames_then_error_witness :
    (∀ f ∈ ["a", "b", "c"], (sampleConv f).2 = none)
    ∧ sends (ChatCompletionsStream sampleClock (.ok "req")
        (fun _ => .ok [.ok "a", .ok "b", .ok "c", .error ioEOF]) none sampleConv).trace
      = [{ Body := "a", ConnTime := 1, Duration := 1, TotalTime := 2 },
         { Body := "b", ConnTime := 1, Duration := 2, TotalTime := 3 },
         { Body := "c", ConnTime := 1, Duration := 3, TotalTime := 4 },
         { Body := "", ConnTime := 1, Duration := 4, TotalTime := 5, Error := some ioEOF }] :=
  ⟨by decide,
   (stream_frames_then_error sampleClock "req" sampleConv ["a", "b", "c"] ioEOF []
      (by decide)).2.2.1⟩

/-- C2. When the first `k - 1` frames decode and the decoder rejects the `k`-th with
error `e`, the channel carries exactly the `k - 1` content chunks followed by one
sentinel chunk whose `Error` is `e`; the rejected frame is the last one read from
the stream, and the producer returned. -/
theorem stream_decode_failure (clock : Nat → Int) (request : Bytes)
    (conv : Bytes → ChatCompletionResponse × Option Err) (frames : List Bytes)
    (bad : Bytes) (e : Err) (tail : List (Except Err Bytes))
    (hdec : ∀ f ∈ frames, (conv f).2 = none) (hbad : (conv bad).2 = some e) :
    (ChatCompletionsStream clock (.ok request)
        (fun _ => .ok (frames.map .ok ++ .ok bad :: tail)) none conv).producerReturned = true
    ∧ sends (ChatCompletionsStream clock (.ok request)
        (fun _ => .ok (frames.map .ok ++ .ok bad :: tail)) none conv).trace
      = frames.mapIdx
          (fun i f => contentChunk (clock 0) (clock 1) (clock (2 + i)) (conv f).1)
        ++ [terminalChunk (clock 0) (clock 1) (clock (2 + frames.length)) e]
    ∧ (terminalChunk (clock 0) (clock 1) (clock (2 + frames.length)) e).Error = some e
    ∧ recvs (ChatCompletionsStream clock (.ok request)
        (fun _ => .ok (frames.map .ok ++ .ok bad :: tail)) none conv).trace
      = frames.map .ok ++ [.ok bad]
    ∧ (ChatCompletionsStream clock (.ok request)
        (fun _ => .ok (frames.map .ok ++ .ok bad :: tail)) none conv).trace.getLast?
      = some .streamClose := by
  have hc : conv bad = ((conv bad).1, some e) := by rw [← hbad]
  simp only [ChatCompletionsStream, producer_frames conv clock _ _ frames _ 2 hdec, producer]
  rw [hc]
  refine ⟨rfl, ?_, rfl, ?_, ?_⟩
  · simp [sends, sends_append, sends_contentEvents]
  · simp [recvs, recvs_append, recvs_contentEvents]
  · exact getLast?_three _ _ _ _ _

theorem stream_decode_failure_witness :
    (∀ f ∈ ["a", "b"], (sampleConv f).2 = none) ∧ (sampleConv "!x").2 = some "bad frame"
    ∧ sends (ChatCompletionsStream sampleClock (.ok "req")
        (fun _ => .ok [.ok "a", .ok "b", .ok "!x", .ok "d", .error ioEOF]) none sampleConv).trace
      = [{ Body := "a", ConnTime := 1, Duration := 1, TotalTime := 2 },
         { Body := "b", ConnTime := 1, Duration := 2, TotalTime := 3 },
         { Body := "", ConnTime := 1, Duration := 3, TotalTime := 4, Error := some "bad frame" }]
    ∧ recvs (ChatCompletionsStream sampleClock (.ok "req")
        (fun _ => .ok [.ok "a", .ok "b", .ok "!x", .ok "d", .error ioEOF]) none sampleConv).trace
      = [.ok "a", .ok "b", .ok "!x"] :=
  ⟨by decide, by decide,
   (stream_decode_failure sampleClock "req" sampleConv ["a", "b"] "!x" "bad frame"
      [.ok "d", .error ioEOF] (by decide) (by decide)).2.1,
   (stream_decode_failure sampleClock "req" sampleConv ["a", "b"] "!x" "bad frame"
      [.ok "d", .error ioEOF] (by decide) (by decide)).2.2.2.1⟩

/-! ## Timing of the chunks -/

/-- C3. In every session, if the millisecond clock never goes back (and its readings
are in range), each published chunk carries as `TotalTime` the difference between a
clock reading taken after the stream was opened and the reading at call entry, and
the `TotalTime` values, in publish order, never decrease. -/
theorem stream_totalTime_nondecreasing (clock : Nat → Int) (convReq : Except Err Bytes)
    (sse : Bytes → Except Err (List (Except Err Bytes))) (spawn : Option Err)
    (conv : Bytes → ChatCompletionResponse × Option Err)
    (hrange : ∀ k, InClockRange (clock k)) (hmono : ∀ k, clock k ≤ clock (k + 1)) :
    (∀ c ∈ sends (ChatCompletionsStream clock convReq sse spawn conv).trace,
        ∃ k, 2 ≤ k ∧ c.TotalTime = clock k - clock 0)
    ∧ List.Pairwise (· ≤ ·)
        ((sends (ChatCompletionsStream clock convReq sse spawn conv).trace).map
          (fun c => c.TotalTime)) := by
  rw [List.pairwise_map]
  unfold ChatCompletionsStream
  cases convReq with
  | error err => simp [sends]
  | ok request =>
    cases hs : sse request with
    | error err => simp [hs, sends]
    | ok stream =>
      cases spawn with
      | some err => simp [hs, sends]
      | none =>
        simp only [hs, sends]
        refine ⟨?_, producer_sends_sorted conv clock 0 1 stream 2 hrange hmono⟩
        intro c hc
        obtain ⟨k, hk, hkc⟩ := producer_sends_stamp conv clock _ _ stream 2 c hc
        exact ⟨k, hk, by rw [hkc, sub64_of_range _ _ (hrange k) (hrange 0)]⟩

theorem sampleClock_range : ∀ k, InClockRange (sampleClock k) := by
  intro k
  unfold InClockRange sampleClock
  omega

theorem sampleClock_mono : ∀ k, sampleClock k ≤ sampleClock (k + 1) := by
  intro k
  unfold sampleClock
  omega

theorem stream_totalTime_nondecreasing_witness :
    (∀ k, InClockRange (sampleClock k)) ∧ (∀ k, sampleClock k ≤ sampleClock (k + 1))
    ∧ List.Pairwise (· ≤ ·)
        ((sends (ChatCompletionsStream sampleClock (.ok "req")
            (fun _ => .ok [.ok "a", .ok "b", .ok "c", .error ioEOF]) none sampleConv).trace).map
          (fun c => c.TotalTime))
    ∧ (sends (ChatCompletionsStream sampleClock (.ok "req")
            (fun _ => .ok [.ok "a", .ok "b", .ok "c", .error ioEOF]) none sampleConv).trace).map
          (fun c => c.TotalTime) = [2, 3, 4, 5] :=
  ⟨sampleClock_range, sampleClock_mono,
   (stream_totalTime_nondecreasing sampleClock (.ok "req")
      (fun _ => .ok [.ok "a", .ok "b", .ok "c", .error ioEOF]) none sampleConv
      sampleClock_range sampleClock_mono).2,
   by decide⟩

/-! ## The failure paths of the call and the life of the channel -/

/-- When request conversion fails or the stream cannot be opened, the channel
returned with the error is nil and nothing was done on any stream. -/
theorem stream_open_failure_returns_nil (clock : Nat → Int) (request : Bytes) (e : Err)
    (sse : Bytes → Except Err (List (Except Err Bytes))) (spawn : Option Err)
    (conv : Bytes → ChatCompletionResponse × Option Err) :
    ChatCompletionsStream clock (.error e) sse spawn conv
      = { responseChan := .nil, err := some e, trace := [], producerReturned := false }
    ∧ ChatCompletionsStream clock (.ok request) (fun _ => .error e) spawn conv
      = { responseChan := .nil, err := some e, trace := [], producerReturned := false } :=
  ⟨rfl, rfl⟩

/-- The branch of lines 132-135, which is entered only if `grpool.AddWithRecover`
returns an error: the producer is not run and the call returns that error with the
channel made at line 73, nothing having been done on the stream. -/
theorem stream_spawn_refused_branch (clock : Nat → Int) (request : Bytes)
    (script : List (Except Err Bytes)) (e : Err)
    (conv : Bytes → ChatCompletionResponse × Option Err) :
    ChatCompletionsStream clock (.ok request) (fun _ => .ok script) (some e) conv
      = { responseChan := .made, err := some e, trace := [.chanMake],
          producerReturned := false } :=
  rfl

/-- C4. The producer is handed to the package-level pool of `grpool`, which takes
every task (`spawn = none`).  Then whenever the call returns an error, which is the
error of the request conversion or of the opening of the stream, the returned channel
is nil, no channel was made and no producer was started. -/
theorem stream_error_returns_nil_channel (clock : Nat → Int) (convReq : Except Err Bytes)
    (sse : Bytes → Except Err (List (Except Err Bytes))) (spawn : Option Err)
    (conv : Bytes → ChatCompletionResponse × Option Err)
    (hpool : spawn = none)
    (herr : (ChatCompletionsStream clock convReq sse spawn conv).err ≠ none) :
    (ChatCompletionsStream clock convReq sse spawn conv).responseChan = ChanRef.nil
    ∧ Event.chanMake ∉ (ChatCompletionsStream clock convReq sse spawn conv).trace
    ∧ (ChatCompletionsStream clock convReq sse spawn conv).trace = []
    ∧ (ChatCompletionsStream clock convReq sse spawn conv).producerReturned = false
    ∧ ((∃ e, convReq = .error e
          ∧ (ChatCompletionsStream clock convReq sse spawn conv).err = some e)
        ∨ (∃ request e, convReq = .ok request ∧ sse request = .error e
          ∧ (ChatCompletionsStream clock convReq sse spawn conv).err = some e)) := by
  subst hpool
  unfold ChatCompletionsStream at herr ⊢
  cases convReq with
  | error err => simp
  | ok request =>
    cases hs : sse request with
    | error err => simp [hs]
    | ok stream => simp [hs] at herr

theorem stream_error_returns_nil_channel_witness :
    (ChatCompletionsStream sampleClock (.error "bad request")
        (fun _ => .ok [.ok "a", .error ioEOF]) none sampleConv).err ≠ none
    ∧ (ChatCompletionsStream sampleClock (.error "bad request")
        (fun _ => .ok [.ok "a", .error ioEOF]) none sampleConv).responseChan = ChanRef.nil
    ∧ (ChatCompletionsStream sampleClock (.ok "req")
        (fun _ => .error "status 429") none sampleConv).err ≠ none
    ∧ (ChatCompletionsStream sampleClock (.ok "req")
        (fun _ => .error "status 429") none sampleConv).responseChan = ChanRef.nil :=
  ⟨by decide,
   (stream_error_returns_nil_channel sampleClock (.error "bad request")
      (fun _ => .ok [.ok "a", .error ioEOF]) none sampleConv rfl (by decide)).1,
   by decide,
   (stream_error_returns_nil_channel sampleClock (.ok "req")
      (fun _ => .error "status 429") none sampleConv rfl (by decide)).1⟩

/-- C5. The producer is handed to the package-level pool of `grpool`, which takes
every task (`spawn = none`).  Once the stream is open, on every exit path of the
producer (clean end, read failure, decode failure) `stream.Close()` is called exactly
once; it is the last event, right after the send of the terminal chunk, which follows
the last `Recv`, so that no `Recv` comes after it. -/
theorem stream_producer_closes_once (clock : Nat → Int) (request : Bytes)
    (script : List (Except Err Bytes)) (spawn : Option Err)
    (conv : Bytes → ChatCompletionResponse × Option Err)
    (hpool : spawn = none)
    (hret : (ChatCompletionsStream clock (.ok request) (fun _ => .ok script) spawn
      conv).producerReturned = true) :
    List.count Event.streamClose
        (ChatCompletionsStream clock (.ok request) (fun _ => .ok script) spawn conv).trace = 1
    ∧ ∃ pre r term e,
        (ChatCompletionsStream clock (.ok request) (fun _ => .ok script) spawn conv).trace
          = pre ++ [.recv r, .send term, .streamClose]
        ∧ term.Error = some e ∧ Event.streamClose ∉ pre := by
  subst hpool
  simp only [ChatCompletionsStream] at hret ⊢
  obtain ⟨pre, r, term, e, htr, herr, hpre⟩ :=
    producer_returned_shape conv clock _ _ script 2 hret
  refine ⟨?_, .chanMake :: pre, r, term, e, by simp [htr], herr, by simp [hpre]⟩
  rw [List.count_cons, producer_close_once conv clock _ _ script 2 hret]
  simp

theorem stream_producer_closes_once_witness :
    (ChatCompletionsStream sampleClock (.ok "req")
        (fun _ => .ok [.ok "a", .ok "b", .error ioEOF]) none sampleConv).producerReturned = true
    ∧ List.count Event.streamClose (ChatCompletionsStream sampleClock (.ok "req")
        (fun _ => .ok [.ok "a", .ok "b", .error ioEOF]) none sampleConv).trace = 1
    ∧ (ChatCompletionsStream sampleClock (.ok "req")
        (fun _ => .ok [.ok "a", .error "connection reset"]) none sampleConv).producerReturned
      = true
    ∧ List.count Event.streamClose (ChatCompletionsStream sampleClock (.ok "req")
        (fun _ => .ok [.ok "a", .error "connection reset"]) none sampleConv).trace = 1
    ∧ (ChatCompletionsStream sampleClock (.ok "req")
        (fun _ => .ok [.ok "a", .ok "!b", .ok "c"]) none sampleConv).producerReturned = true
    ∧ List.count Event.streamClose (ChatCompletionsStream sampleClock (.ok "req")
        (fun _ => .ok [.ok "a", .ok "!b", .ok "c"]) none sampleConv).trace = 1 :=
  ⟨by decide,
   (stream_producer_closes_once sampleClock "req" [.ok "a", .ok "b", .error ioEOF] none
      sampleConv rfl (by decide)).1,
   by decide,
   (stream_producer_closes_once sampleClock "req" [.ok "a", .error "connection reset"] none
      sampleConv rfl (by decide)).1,
   by decide,
   (stream_producer_closes_once sampleClock "req" [.ok "a", .ok "!b", .ok "c"] none
      sampleConv rfl (by decide)).1⟩

/-- C6 as stated fails: in a session of three frames and a clean end the producer
returns, and the channel was closed zero times, not once. -/
theorem stream_channel_close_count_counterexample :
    ¬ ((ChatCompletionsStream sampleClock (.ok "req")
          (fun _ => .ok [.ok "a", .ok "b", .ok "c", .error ioEOF]) none
          sampleConv).producerReturned = true
        → List.count Event.chanClose
            (ChatCompletionsStream sampleClock (.ok "req")
              (fun _ => .ok [.ok "a", .ok "b", .ok "c", .error ioEOF]) none
              sampleConv).trace = 1) := by
  decide

/-- C6 amended. In every session the response channel is never closed; when the
producer terminates, the last operation on the channel is the send of the final
sentinel chunk, which carries an error value and is followed only by
`stream.Close()`. -/
theorem stream_channel_never_closed (clock : Nat → Int) (convReq : Except Err Bytes)
    (sse : Bytes → Except Err (List (Except Err Bytes))) (spawn : Option Err)
    (conv : Bytes → ChatCompletionResponse × Option Err) :
    List.count Event.chanClose (ChatCompletionsStream clock convReq sse spawn conv).trace = 0
    ∧ ((ChatCompletionsStream clock convReq sse spawn conv).producerReturned = true →
        ∃ pre term e,
          (ChatCompletionsStream clock convReq sse spawn conv).trace
            = pre ++ [.send term, .streamClose]
          ∧ term.Error = some e) := by
  unfold ChatCompletionsStream
  cases convReq with
  | error err => simp
  | ok request =>
    cases hs : sse request with
    | error err => simp [hs]
    | ok stream =>
      cases spawn with
      | some err => simp [hs]
      | none =>
        simp only [hs]
        refine ⟨?_, fun hret => ?_⟩
        · rw [List.count_eq_zero]
          simp only [List.mem_cons, not_or]
          exact ⟨by simp, producer_no_chanClose conv clock _ _ stream 2⟩
        · obtain ⟨pre, r, term, e, htr, herr, _⟩ :=
            producer_returned_shape conv clock _ _ stream 2 hret
          exact ⟨.chanMake :: (pre ++ [.recv r]), term, e, by simp [htr], herr⟩

theorem stream_channel_never_closed_witness :
    (ChatCompletionsStream sampleClock (.ok "req")
        (fun _ => .ok [.ok "a", .ok "!b", .ok "c"]) none sampleConv).producerReturned = true
    ∧ List.count Event.chanClose (ChatCompletionsStream sampleClock (.ok "req")
        (fun _ => .ok [.ok "a", .ok "!b", .ok "c"]) none sampleConv).trace = 0
    ∧ ∃ pre term e,
        (ChatCompletionsStream sampleClock (.ok "req")
          (fun _ => .ok [.ok "a", .ok "!b", .ok "c"]) none sampleConv).trace
          = pre ++ [.send term, .streamClose]
        ∧ term.Error = some e :=
  ⟨by decide,
   (stream_channel_never_closed sampleClock (.ok "req")
      (fun _ => .ok [.ok "a", .ok "!b", .ok "c"]) none sampleConv).1,
   (stream_channel_never_closed sampleClock (.ok "req")
      (fun _ => .ok [.ok "a", .ok "!b", .ok "c"]) none sampleConv).2 (by decide)⟩

/-! ## The synchronous call -/

/-- C9. On every return path of `ChatCompletions` the returned response carries as
`TotalTime` the `int64` difference of the clock reading at return and the reading
at entry, whatever the decoder had put there; with readings in range this is their
difference, which is not negative when the later reading is no earlier than the
first. -/
theorem chatCompletions_totalTime (clock : Nat → Int) (convReq : Except Err Bytes)
    (httpPost : Bytes → Except Err Bytes)
    (convResp : Bytes → ChatCompletionResponse × Option Err)
    (h0 : InClockRange (clock 0)) (h1 : InClockRange (clock 1)) :
    (ChatCompletions clock convReq httpPost convResp).1.TotalTime = sub64 (clock 1) (clock 0)
    ∧ (ChatCompletions clock convReq httpPost convResp).1.TotalTime = clock 1 - clock 0
    ∧ (clock 0 ≤ clock 1 → 0 ≤ (ChatCompletions clock convReq httpPost convResp).1.TotalTime) := by
  have h : (ChatCompletions clock convReq httpPost convResp).1.TotalTime
      = sub64 (clock 1) (clock 0) := rfl
  rw [h, sub64_of_range _ _ h1 h0]
  exact ⟨rfl, rfl, fun hle => by omega⟩

theorem chatCompletions_totalTime_witness :
    InClockRange (sampleClock 0) ∧ InClockRange (sampleClock 1)
    ∧ (sampleConv "hello").1.TotalTime = 77
    ∧ (ChatCompletions sampleClock (.ok "req") (fun _ => .ok "hello") sampleConv).1.TotalTime
      = sampleClock 1 - sampleClock 0
    ∧ (ChatCompletions sampleClock (.error "bad request") (fun _ => .ok "hello")
        sampleConv).1.TotalTime = sampleClock 1 - sampleClock 0
    ∧ (ChatCompletions sampleClock (.ok "req") (fun _ => .error "timeout")
        sampleConv).1.TotalTime = sampleClock 1 - sampleClock 0
    ∧ (ChatCompletions sampleClock (.ok "req") (fun _ => .ok "!")
        sampleConv).1.TotalTime = sampleClock 1 - sampleClock 0 :=
  ⟨sampleClock_range 0, sampleClock_range 1, by decide,
   (chatCompletions_totalTime sampleClock (.ok "req") (fun _ => .ok "hello") sampleConv
      (sampleClock_range 0) (sampleClock_range 1)).2.1,
   (chatCompletions_totalTime sampleClock (.error "bad request") (fun _ => .ok "hello")
      sampleConv (sampleClock_range 0) (sampleClock_range 1)).2.1,
   (chatCompletions_totalTime sampleClock (.ok "req") (fun _ => .error "timeout") sampleConv
      (sampleClock_range 0) (sampleClock_range 1)).2.1,
   (chatCompletions_totalTime sampleClock (.ok "req") (fun _ => .ok "!") sampleConv
      (sampleClock_range 0) (sampleClock_range 1)).2.1⟩

/-! ## The request error handler -/

/-- C7. For every status code and every body that was read, whatever
`json.Unmarshal` made of it, the handler returns a request error (it does not read
through a nil `errRes.Error`) whose `HttpStatusCode` is the status of the response. -/
theorem requestErrorHandler_keeps_status (encode : AnthropicError → String)
    (unmarshal : Bytes → Unmarshalled) (StatusCode : Int) (bytes : Bytes) :
    ∃ reqErr, requestErrorHandler encode unmarshal StatusCode (.ok bytes) = .request reqErr
      ∧ reqErr.HttpStatusCode = StatusCode := by
  unfold requestErrorHandler
  rcases h : unmarshal bytes with ⟨_ | uerr, _ | e⟩ <;> simp [h, NewRequestError]

/-- C8 as stated fails: with a body of `n` letters that is not JSON, the message of
the returned error grows with `n`, so no constant bounds the body text it embeds. -/
theorem requestErrorHandler_excerpt_unbounded :
    ¬ ∃ B : Nat, ∀ (n : Nat) (reqErr : RequestError),
        requestErrorHandler sampleEncode
          (fun _ => { err := some "invalid character", Error := none }) 500
          (.ok (String.mk (List.replicate n (Char.ofNat 120)))) = .request reqErr
        → reqErr.Err.length ≤ B + ("response: , error: invalid character").length := by
  rintro ⟨B, hB⟩
  have h := hB (B + 1) _ rfl
  simp only [String.length_append, fmtV] at h
  have hlen : (String.mk (List.replicate (B + 1) (Char.ofNat 120))).length = B + 1 := by
    simp [String.length]
  rw [hlen] at h
  have h1 : ("response: ").length = 10 := by decide
  have h2 : (", error: ").length = 9 := by decide
  have h3 : ("invalid character").length = 17 := by decide
  have h4 : ("response: , error: invalid character").length = 36 := by decide
  rw [h1, h2, h3, h4] at h
  omega

/-- C8 amended. For every status code and every body from which `json.Unmarshal`
got no error object, the handler returns a request error carrying the status and
the message `response: <body>, error: <parse error>` holding the whole body, so
that the message is at least as long as the body. -/
theorem requestErrorHandler_fallback_whole_body (encode : AnthropicError → String)
    (unmarshal : Bytes → Unmarshalled) (StatusCode : Int) (bytes : Bytes)
    (hnone : (unmarshal bytes).Error = none) :
    requestErrorHandler encode unmarshal StatusCode (.ok bytes)
      = .request { HttpStatusCode := StatusCode
                   Err := "response: " ++ bytes ++ ", error: " ++ fmtV (unmarshal bytes).err }
    ∧ bytes.length
      ≤ ("response: " ++ bytes ++ ", error: " ++ fmtV (unmarshal bytes).err).length := by
  constructor
  · unfold requestErrorHandler
    simp [hnone]
  · simp only [String.length_append]
    omega

theorem requestErrorHandler_fallback_whole_body_witness :
    (sampleUnmarshal "Internal Server Error: upstream unavailable").Error = none
    ∧ requestErrorHandler sampleEncode sampleUnmarshal 500
        (.ok "Internal Server Error: upstream unavailable")
      = .request { HttpStatusCode := 500
                   Err := "response: Internal Server Error: upstream unavailable"
                     ++ ", error: invalid character" } :=
  ⟨by decide,
   (requestErrorHandler_fallback_whole_body sampleEncode sampleUnmarshal 500
      "Internal Server Error: upstream unavailable" (by decide)).1⟩

/-! ## The split of the composite AWS key -/

/-- When the separator occurs, `Index` finds the place where the text before it ends
and the text after it starts. -/
theorem Index_of_mem (sep : Char) (s : List Char) (h : sep ∈ s) :
    ∃ m, Index sep s = some m ∧ s.take m = beforeSep sep s
      ∧ s.drop (m + 1) = afterSep sep s := by
  induction s with
  | nil => simp at h
  | cons c cs ih =>
    by_cases hc : c = sep
    · exact ⟨0, by simp [Index, hc], by simp [beforeSep, hc], by simp [afterSep, hc]⟩
    · have hmem : sep ∈ cs := by
        rcases List.mem_cons.mp h with h1 | h1
        · exact absurd h1.symm hc
        · exact h1
      obtain ⟨m, hm, htake, hdrop⟩ := ih hmem
      refine ⟨m + 1, by simp [Index, hc, hm], ?_, ?_⟩
      · simp only [beforeSep] at htake
        simp [beforeSep, hc, htake]
      · simp only [afterSep] at hdrop
        simp [afterSep, hc, hdrop]

theorem Index_of_not_mem (sep : Char) (s : List Char) (h : sep ∉ s) : Index sep s = none := by
  induction s with
  | nil => rfl
  | cons c cs ih =>
    have hc : ¬ c = sep := fun hc => h (by simp [hc])
    have hcs : sep ∉ cs := fun hcs => h (List.mem_cons_of_mem _ hcs)
    simp [Index, hc, ih hcs]

theorem beforeSep_of_not_mem (sep : Char) (s : List Char) (h : sep ∉ s) :
    beforeSep sep s = s := by
  unfold beforeSep
  rw [List.takeWhile_eq_self_iff]
  intro c hc
  simpa using fun hcs : c = sep => h (hcs ▸ hc)

theorem count_afterSep (sep : Char) (s : List Char) (h : sep ∈ s) :
    s.count sep = (afterSep sep s).count sep + 1 := by
  induction s with
  | nil => simp at h
  | cons c cs ih =>
    by_cases hc : c = sep
    · simp [afterSep, hc]
    · have hmem : sep ∈ cs := by
        rcases List.mem_cons.mp h with h1 | h1
        · exact absurd h1.symm hc
        · exact h1
      have := ih hmem
      simp only [afterSep] at this
      simp [afterSep, hc, List.count_cons, this]

/-- One round of the split loop on a text that holds the separator. -/
theorem genSplit_succ_of_mem (sep : Char) (n : Nat) (s : List Char) (h : sep ∈ s) :
    genSplit sep (n + 1) s = beforeSep sep s :: genSplit sep n (afterSep sep s) := by
  obtain ⟨m, hm, htake, hdrop⟩ := Index_of_mem sep s h
  simp [genSplit, hm, htake, hdrop]

theorem genSplit_length (sep : Char) (n : Nat) (s : List Char) (h : s.count sep = n) :
    (genSplit sep n s).length = n + 1 := by
  induction n generalizing s with
  | zero => simp [genSplit]
  | succ n ih =>
    have hmem : sep ∈ s := by
      rw [← List.count_pos_iff]
      omega
    have hc := count_afterSep sep s hmem
    rw [genSplit_succ_of_mem sep n s hmem, List.length_cons, ih (afterSep sep s) (by omega)]

theorem genSplit_head (sep : Char) (s : List Char) :
    (genSplit sep (s.count sep) s)[0]? = some (beforeSep sep s) := by
  by_cases hmem : sep ∈ s
  · obtain ⟨n, hn⟩ : ∃ n, s.count sep = n + 1 :=
      ⟨s.count sep - 1, by have := List.count_pos_iff.mpr hmem; omega⟩
    rw [hn, genSplit_succ_of_mem sep n s hmem]
    simp
  · rw [List.count_eq_zero.mpr hmem, beforeSep_of_not_mem sep s hmem]
    simp [genSplit]

/-- C10. Splitting the key on `|` gives one part more than the key has `|`.  With at
least two `|` there are at least three parts and the constructor gets the text
before the first `|` as region, the text between the first and the second `|` as
access key and the text between the second `|` and the next `|` (or the end) as
secret; with fewer than two `|` there are fewer than three parts and reading
`result[1]` or `result[2]` is out of range. -/
theorem newAwsAdapter_key_split (key : String) :
    (Split key '|').length = key.toList.count '|' + 1
    ∧ (2 ≤ key.toList.count '|' →
        3 ≤ (Split key '|').length
        ∧ NewAwsAdapter key = .ok
            { Region := String.mk (beforeSep '|' key.toList)
              AccessKeyID := String.mk (beforeSep '|' (afterSep '|' key.toList))
              SecretAccessKey :=
                String.mk (beforeSep '|' (afterSep '|' (afterSep '|' key.toList)))
              isAws := true })
    ∧ (key.toList.count '|' < 2 →
        (Split key '|').length < 3
        ∧ NewAwsAdapter key = .error
            { index := (Split key '|').length, length := (Split key '|').length }) := by
  have hlen : (Split key '|').length = key.toList.count '|' + 1 := by
    unfold Split
    rw [List.length_map, genSplit_length '|' _ key.toList rfl]
  refine ⟨hlen, fun h2 => ⟨by omega, ?_⟩, fun h2 => ⟨by omega, ?_⟩⟩
  · have hmem : '|' ∈ key.toList := by
      rw [← List.count_pos_iff]
      omega
    have hc1 := count_afterSep '|' key.toList hmem
    have hmem1 : '|' ∈ afterSep '|' key.toList := by
      rw [← List.count_pos_iff]
      omega
    have hc2 := count_afterSep '|' (afterSep '|' key.toList) hmem1
    have hsplit : Split key '|'
        = String.mk (beforeSep '|' key.toList)
          :: String.mk (beforeSep '|' (afterSep '|' key.toList))
          :: (genSplit '|' ((afterSep '|' (afterSep '|' key.toList)).count '|')
                (afterSep '|' (afterSep '|' key.toList))).map String.mk := by
      unfold Split
      rw [hc1, hc2, genSplit_succ_of_mem '|' _ _ hmem, genSplit_succ_of_mem '|' _ _ hmem1]
      rfl
    have hhead := genSplit_head '|' (afterSep '|' (afterSep '|' key.toList))
    unfold NewAwsAdapter
    simp only [hsplit, List.getElem?_cons_zero, List.getElem?_cons_succ, List.getElem?_map,
      hhead, Option.map_some']
  · have hcases : key.toList.count '|' = 0 ∨ key.toList.count '|' = 1 := by omega
    rcases hcases with h0 | h1
    · have hsplit : Split key '|' = [String.mk key.toList] := by
        unfold Split
        rw [h0]
        rfl
      unfold NewAwsAdapter
      simp [hsplit]
    · have hmem : '|' ∈ key.toList := by
        rw [← List.count_pos_iff]
        omega
      have hsplit : Split key '|'
          = [String.mk (beforeSep '|' key.toList), String.mk (afterSep '|' key.toList)] := by
        unfold Split
        rw [h1, genSplit_succ_of_mem '|' 0 _ hmem]
        rfl
      unfold NewAwsAdapter
      simp [hsplit]

theorem newAwsAdapter_key_split_witness :
    2 ≤ ("us-east-1|AKID|s3cr3t|extra").toList.count '|'
    ∧ NewAwsAdapter "us-east-1|AKID|s3cr3t|extra"
      = .ok { Region := "us-east-1", AccessKeyID := "AKID", SecretAccessKey := "s3cr3t",
              isAws := true }
    ∧ ("us-east-1|AKID").toList.count '|' < 2
    ∧ NewAwsAdapter "us-east-1|AKID" = .error { index := 2, length := 2 } :=
  ⟨by decide, ((newAwsAdapter_key_split "us-east-1|AKID|s3cr3t|extra").2.1 (by decide)).2,
   by decide, ((newAwsAdapter_key_split "us-east-1|AKID").2.2 (by decide)).2⟩

end FastapiSdk
